import Mathlib

/-!
Verification of the QName / Namespace subsystem (`core/src/avm2/globals/q_name.rs`).

The Rust source is shallowly embedded:

* `Value` / `Object` mirror the runtime value variants that the QName code
  inspects (`Value::Undefined`, `Value::Null`, strings, `NamespaceObject`,
  `QNameObject`, and other objects whose string coercion is opaque and may
  raise a script error).
* QName instances live on an explicit heap (`List QNameData`); a
  `QNameObject` value carries its heap address, so heap identity (claim
  about the function-call shape) is observable.
* `init` is the constructor's `init` method.  It is written in explicit
  state-passing style: it returns the `Except` outcome of the call *and*
  the state of the freshly allocated instance at the point the call
  returned, so that the "no field was written before the error" property
  is a real statement about the embedding and not an artifact of purity.
* `construct` is the constructor entry point (allocate + `init`);
  `call_handler` is the function-call shape; `get_local_name`, `get_uri`
  and `to_string` are the accessors.
-/

namespace Ruffle

/-- A script-level error raised by a value's own string-conversion logic
(the QName subsystem never inspects it, only propagates it). -/
structure ScriptError where
  msg : String
  deriving DecidableEq

instance {ε α : Type} [DecidableEq ε] [DecidableEq α] : DecidableEq (Except ε α) := fun a b =>
  match a, b with
  | .ok x, .ok y => decidable_of_iff (x = y) (by simp)
  | .ok _, .error _ => isFalse (by simp)
  | .error _, .ok _ => isFalse (by simp)
  | .error x, .error y => decidable_of_iff (x = y) (by simp)

/-- Modelled from the spec: the Version Tag is a totally ordered enumeration
of language versions with one special value `AllVersions` that "matches any
version"; only the tag's identity matters to the QName code. -/
inductive ApiVersion where
  | AllVersions : ApiVersion
  | Tag : Nat → ApiVersion
  deriving DecidableEq

/-- Modelled from the spec: a Namespace is one of Public/Package (URI plus
version tag), Private, Protected, Explicit, or the Any marker.  The QName
code under verification only ever builds `package` namespaces
(`Namespace::package`). -/
inductive Namespace where
  | package : String → ApiVersion → Namespace
  | privateNs : Namespace
  | protectedNs : Namespace
  | explicitNs : Namespace
  | anyNs : Namespace
  deriving DecidableEq

/-- Modelled from the spec: only Package namespaces carry a URI. -/
def Namespace.uri : Namespace → Option String
  | .package u _ => some u
  | _ => none

/-- The fields of a heap-allocated QName instance: local name, optional
namespace, and the `is_qname` qualification flag.  (`namespace` is a Lean
keyword, hence the field name `nameSpace`.) -/
structure QNameData where
  local_name : String
  nameSpace : Option Namespace
  is_qname : Bool
  deriving DecidableEq

/-- Modelled from the spec: `allocate()` (the `q_name_allocator`, not under
`src/`) produces an uninitialized, unqualified instance — empty local name,
no namespace, `is_qname = false` — ready for `init` to populate. -/
def QNameData.fresh : QNameData := ⟨"", none, false⟩

/-- Modelled from the spec: `QNameObject::uri` returns the Package
namespace's URI, or the "no URI" marker when the instance is unqualified or
its namespace is not a Package namespace. -/
def QNameData.uri (q : QNameData) : Option String :=
  q.nameSpace.bind Namespace.uri

/-- Modelled from the spec: `Multiname::as_uri` (QName `toString`) formats a
qualified name as `\x7buri\x7dlocal_name` when the URI is non-empty, and as
the plain local name when the URI is empty or absent. -/
def QNameData.as_uri (q : QNameData) : String :=
  match q.uri with
  | some u => if u = "" then q.local_name else "\x7b" ++ u ++ "\x7d" ++ q.local_name
  | none => q.local_name

/-- The object variants the QName code distinguishes: `NamespaceObject`,
`QNameObject` (by heap address), and every other object, represented by the
outcome of its own string-conversion logic (which may raise). -/
inductive Object where
  | namespaceObject : Namespace → Object
  | qnameObject : Nat → Object
  | plainObject : Except ScriptError String → Object
  deriving DecidableEq

/-- `Object::as_qname_object`. -/
def Object.as_qname_object : Object → Option Nat
  | .qnameObject a => some a
  | _ => none

/-- The runtime value variants the QName code inspects. -/
inductive Value where
  | undefined : Value
  | null : Value
  | string : String → Value
  | object : Object → Value
  deriving DecidableEq

/-- `Value::as_object`. -/
def Value.as_object : Value → Option Object
  | .object o => some o
  | _ => none

/-- `matches!(v, Value::Undefined)`. -/
def Value.isUndefined : Value → Bool
  | .undefined => true
  | _ => false

/-- Read a heap slot; out-of-range addresses (which a well-formed runtime
never produces) default to a fresh instance. -/
def heapGet (heap : List QNameData) (a : Nat) : QNameData :=
  heap.getD a QNameData.fresh

/-- Modelled from the spec: the external coercion of a value to a string
(`Value::coerce_to_string`).  Primitives coerce to their canonical strings,
a `NamespaceObject` to its URI, a `QNameObject` to its `toString` form
(`as_uri`), and any other object runs its own conversion logic, which may
raise a script error that propagates unchanged. -/
def coerce_to_string (heap : List QNameData) : Value → Except ScriptError String
  | .undefined => .ok "undefined"
  | .null => .ok "null"
  | .string s => .ok s
  | .object (.namespaceObject ns) => .ok (ns.uri.getD "")
  | .object (.qnameObject a) => .ok ((heapGet heap a).as_uri)
  | .object (.plainObject r) => r

/-- The `match ns_arg` namespace-resolution table inside `init`'s
two-argument branch: a `NamespaceObject` is used as-is, a `QNameObject`
yields a Package namespace from its URI at `AllVersions` (or no namespace
when it has no URI), `null` yields no namespace, `undefined` yields the
empty-URI Package namespace at the root version, and anything else is
coerced to a string and used as a Package URI at the root version. -/
def resolveNamespaceArg (rootApi : ApiVersion) (heap : List QNameData) :
    Value → Except ScriptError (Option Namespace)
  | .object (.namespaceObject ns) => .ok (some ns)
  | .object (.qnameObject a) =>
      .ok (((heapGet heap a).uri).map (fun u => Namespace.package u ApiVersion.AllVersions))
  | .null => .ok none
  | .undefined => .ok (some (Namespace.package "" rootApi))
  | v => (coerce_to_string heap v).map (fun s => some (Namespace.package s rootApi))

/-- The finalization step of `init`: `if let Some(namespace) = namespace`,
write the namespace and set `is_qname`; otherwise leave the instance
untouched. -/
def applyNamespace (nsOpt : Option Namespace) (q : QNameData) :
    Except ScriptError Unit × QNameData :=
  match nsOpt with
  | some ns => (Except.ok (), { q with nameSpace := some ns, is_qname := true })
  | none => (Except.ok (), q)

/-- `QName`'s `init` method.  `rootApi` is `avm2().root_api_version`,
`publicNs` is `avm2().find_public_namespace()` (modelled from the spec:
the process's canonical public namespace), `this0` is the state of the
freshly allocated instance.  Returns the call outcome together with the
instance's state when the call returned, so that writes performed before
an error are observable. -/
def init (rootApi : ApiVersion) (publicNs : Namespace) (heap : List QNameData)
    (this0 : QNameData) (args : List Value) : Except ScriptError Unit × QNameData :=
  if 2 ≤ args.length then
    match resolveNamespaceArg rootApi heap (args.getD 0 Value.undefined) with
    | .error e => (.error e, this0)
    | .ok nsOpt =>
      match (if (args.getD 1 Value.undefined).isUndefined then Value.string ""
             else args.getD 1 Value.undefined) with
      | .object (.qnameObject a) =>
          applyNamespace nsOpt { this0 with local_name := (heapGet heap a).local_name }
      | v =>
        match coerce_to_string heap v with
        | .error e => (.error e, this0)
        | .ok s => applyNamespace nsOpt { this0 with local_name := s }
  else
    match args.getD 0 Value.undefined with
    | .object (.qnameObject a) => (.ok (), heapGet heap a)
    | qname_arg =>
      match (if qname_arg.isUndefined then Except.ok "" else coerce_to_string heap qname_arg) with
      | .error e => (.error e, this0)
      | .ok localName =>
        if localName ≠ "*" then
          applyNamespace (some publicNs) { this0 with local_name := localName }
        else
          (.ok (), this0)

/-- The constructor entry point: allocate a fresh instance, run `init` on
it, and return the extended heap together with the new instance's address.
An `init` error propagates unchanged. -/
def construct (rootApi : ApiVersion) (publicNs : Namespace) (heap : List QNameData)
    (args : List Value) : Except ScriptError (List QNameData × Nat) :=
  match init rootApi publicNs heap QNameData.fresh args with
  | (.ok _, q) => .ok (heap ++ [q], heap.length)
  | (.error e, _) => .error e

/-- `call_handler`: with exactly one argument that is already a QName
object, return that value unchanged (and allocate nothing); otherwise
construct a new QName with the same arguments. -/
def call_handler (rootApi : ApiVersion) (publicNs : Namespace) (heap : List QNameData)
    (args : List Value) : Except ScriptError (List QNameData × Value) :=
  if args.length = 1 ∧
      (((args.getD 0 Value.undefined).as_object).bind Object.as_qname_object).isSome then
    .ok (heap, args.getD 0 Value.undefined)
  else
    (construct rootApi publicNs heap args).map
      (fun r => (r.1, Value.object (Object.qnameObject r.2)))

/-- `QName.localName`'s getter. -/
def get_local_name (heap : List QNameData) (obj : Object) : Except ScriptError Value :=
  match obj.as_qname_object with
  | some a => .ok (Value.string (heapGet heap a).local_name)
  | none => .ok Value.undefined

/-- `QName.uri`'s getter. -/
def get_uri (heap : List QNameData) (obj : Object) : Except ScriptError Value :=
  match obj.as_qname_object with
  | some a =>
      .ok (match (heapGet heap a).uri with
           | some u => Value.string u
           | none => Value.null)
  | none => .ok Value.undefined

/-- `QName.AS3::toString` and `QName.prototype.toString`. -/
def to_string (heap : List QNameData) (obj : Object) : Except ScriptError Value :=
  match obj.as_qname_object with
  | some a => .ok (Value.string ((heapGet heap a).as_uri))
  | none => .ok Value.undefined

/-- The data-model invariant of claim C2: the qualification flag holds
exactly when a namespace is present. -/
def QNameInv (q : QNameData) : Prop := q.is_qname = true ↔ q.nameSpace.isSome = true

theorem fresh_inv : QNameInv QNameData.fresh := by
  simp [QNameInv, QNameData.fresh]

theorem heapGet_mem_or_fresh (heap : List QNameData) (a : Nat) :
    heapGet heap a ∈ heap ∨ heapGet heap a = QNameData.fresh := by
  induction heap generalizing a with
  | nil => right; rfl
  | cons q t ih =>
    cases a with
    | zero => left; exact List.mem_cons_self q t
    | succ n =>
      rcases ih n with h | h
      · left; exact List.mem_cons_of_mem q h
      · right; exact h

theorem heapGet_inv (heap : List QNameData) (a : Nat)
    (hheap : ∀ qd ∈ heap, QNameInv qd) : QNameInv (heapGet heap a) := by
  rcases heapGet_mem_or_fresh heap a with h | h
  · exact hheap _ h
  · rw [h]; exact fresh_inv

theorem heapGet_append_self (heap : List QNameData) (q : QNameData) :
    heapGet (heap ++ [q]) heap.length = q := by
  induction heap with
  | nil => rfl
  | cons p t ih => exact ih

theorem applyNamespace_fst (nsOpt : Option Namespace) (q : QNameData) :
    (applyNamespace nsOpt q).1 = Except.ok () := by
  cases nsOpt <;> rfl

theorem applyNamespace_inv (nsOpt : Option Namespace) (q0 q : QNameData)
    (h0 : QNameInv q0) (h : applyNamespace nsOpt q0 = (Except.ok (), q)) : QNameInv q := by
  cases nsOpt with
  | none =>
    simp only [applyNamespace] at h
    cases h
    exact h0
  | some ns =>
    simp only [applyNamespace] at h
    cases h
    simp [QNameInv]

theorem construct_ok_length (rootApi : ApiVersion) (publicNs : Namespace)
    (heap h2 : List QNameData) (args : List Value) (addr : Nat)
    (h : construct rootApi publicNs heap args = Except.ok (h2, addr)) :
    addr = heap.length ∧ h2.length = heap.length + 1 := by
  unfold construct at h
  split at h
  · rename_i heq
    rw [Except.ok.injEq, Prod.mk.injEq] at h
    obtain ⟨h1, h2'⟩ := h
    subst h1 h2'
    simp
  · exact absurd h (by simp)

theorem as_uri_short (q : QNameData) (s : String) (h : q.as_uri = s)
    (hs : s.length ≤ 1) : q.local_name = s := by
  rcases hu : q.uri with _ | u
  · simp only [QNameData.as_uri, hu] at h; exact h
  · by_cases he : u = ""
    · simp only [QNameData.as_uri, hu, he, if_pos] at h; exact h
    · simp only [QNameData.as_uri, hu, if_neg he] at h
      have hlen := congrArg String.length h
      have h7b : ("\x7b" : String).length = 1 := by decide
      have h7d : ("\x7d" : String).length = 1 := by decide
      rw [String.length_append, String.length_append, String.length_append, h7b, h7d] at hlen
      omega

theorem init_snd_or_ok (rootApi : ApiVersion) (publicNs : Namespace)
    (heap : List QNameData) (this0 : QNameData) (args : List Value) :
    (init rootApi publicNs heap this0 args).2 = this0
    ∨ (init rootApi publicNs heap this0 args).1 = Except.ok () := by
  unfold init
  split
  · split
    · left; rfl
    · split
      · right; exact applyNamespace_fst ..
      · split
        · left; rfl
        · right; exact applyNamespace_fst ..
  · split
    · right; rfl
    · split
      · left; rfl
      · split
        · right; exact applyNamespace_fst ..
        · left; rfl

/-- C8: a zero-argument construction yields the empty local name, the
process's canonical public namespace, and `is_qname = true`. -/
theorem init_zero_args_public_namespace (rootApi : ApiVersion) (publicNs : Namespace)
    (heap : List QNameData) :
    init rootApi publicNs heap QNameData.fresh []
      = (Except.ok (), ⟨"", some publicNs, true⟩) := rfl

/-- C9: `local_name`, `uri` and `to_string` invoked on a receiver that is
not a QName instance return `undefined` and do not raise an error. -/
theorem accessors_non_qname_undefined (heap : List QNameData) (obj : Object)
    (h : obj.as_qname_object = none) :
    get_local_name heap obj = Except.ok Value.undefined
    ∧ get_uri heap obj = Except.ok Value.undefined
    ∧ to_string heap obj = Except.ok Value.undefined := by
  refine ⟨?_, ?_, ?_⟩ <;> simp [get_local_name, get_uri, to_string, h]

theorem accessors_non_qname_undefined_witness :
    get_local_name [] (Object.namespaceObject Namespace.anyNs) = Except.ok Value.undefined
    ∧ get_uri [] (Object.namespaceObject Namespace.anyNs) = Except.ok Value.undefined
    ∧ to_string [] (Object.namespaceObject Namespace.anyNs) = Except.ok Value.undefined :=
  accessors_non_qname_undefined [] (Object.namespaceObject Namespace.anyNs) rfl

/-- C10: construction is atomic on error — if `init` raises (a string
coercion failed), the instance's fields are exactly as the allocator left
them: no local name, namespace, or flag write happened before the error. -/
theorem init_error_leaves_fields_unwritten (rootApi : ApiVersion) (publicNs : Namespace)
    (heap : List QNameData) (this0 : QNameData) (args : List Value) (e : ScriptError)
    (h : (init rootApi publicNs heap this0 args).1 = Except.error e) :
    (init rootApi publicNs heap this0 args).2 = this0 := by
  rcases init_snd_or_ok rootApi publicNs heap this0 args with h2 | hok
  · exact h2
  · rw [hok] at h
    exact absurd h (by simp)

theorem init_error_leaves_fields_unwritten_witness :
    (init (ApiVersion.Tag 0) Namespace.anyNs [] QNameData.fresh
        [Value.null, Value.object (Object.plainObject (Except.error ⟨"boom"⟩))]).2
      = QNameData.fresh :=
  init_error_leaves_fields_unwritten (ApiVersion.Tag 0) Namespace.anyNs [] QNameData.fresh
    [Value.null, Value.object (Object.plainObject (Except.error ⟨"boom"⟩))] ⟨"boom"⟩ rfl

/-- C3: a single-argument construction whose argument is an existing QName
instance copies its local name, namespace and qualification flag verbatim
into a newly allocated instance at a distinct heap address. -/
theorem construct_single_qname_copies (rootApi : ApiVersion) (publicNs : Namespace)
    (heap : List QNameData) (a : Nat) (ha : a < heap.length) :
    construct rootApi publicNs heap [Value.object (Object.qnameObject a)]
        = Except.ok (heap ++ [heapGet heap a], heap.length)
    ∧ heapGet (heap ++ [heapGet heap a]) heap.length = heapGet heap a
    ∧ heap.length ≠ a := by
  refine ⟨rfl, heapGet_append_self heap (heapGet heap a), by omega⟩

theorem construct_single_qname_copies_witness :
    construct (ApiVersion.Tag 0) Namespace.anyNs
        [⟨"n", some (Namespace.package "u" (ApiVersion.Tag 0)), true⟩]
        [Value.object (Object.qnameObject 0)]
      = Except.ok ([⟨"n", some (Namespace.package "u" (ApiVersion.Tag 0)), true⟩,
                    ⟨"n", some (Namespace.package "u" (ApiVersion.Tag 0)), true⟩], 1)
    ∧ (1 : Nat) ≠ 0 := by
  have h := construct_single_qname_copies (ApiVersion.Tag 0) Namespace.anyNs
      [⟨"n", some (Namespace.package "u" (ApiVersion.Tag 0)), true⟩] 0 (by decide)
  exact ⟨h.1, by decide⟩

/-- C2: at the end of every successful construction path, the `is_qname`
flag is true exactly when the namespace field is present (the heap the
copy path may read from is assumed to satisfy the same invariant). -/
theorem init_is_qname_iff_namespace_present (rootApi : ApiVersion) (publicNs : Namespace)
    (heap : List QNameData) (args : List Value) (q : QNameData)
    (hheap : ∀ qd ∈ heap, QNameInv qd)
    (h : init rootApi publicNs heap QNameData.fresh args = (Except.ok (), q)) :
    QNameInv q := by
  unfold init at h
  split at h
  · split at h
    · simp at h
    · split at h
      · exact applyNamespace_inv _ _ _ (by simp [QNameInv, QNameData.fresh]) h
      · split at h
        · simp at h
        · exact applyNamespace_inv _ _ _ (by simp [QNameInv, QNameData.fresh]) h
  · split at h
    · rw [Prod.mk.injEq] at h
      obtain ⟨-, h2⟩ := h
      subst h2
      exact heapGet_inv heap _ hheap
    · split at h
      · simp at h
      · split at h
        · exact applyNamespace_inv _ _ _ (by simp [QNameInv, QNameData.fresh]) h
        · rw [Prod.mk.injEq] at h
          obtain ⟨-, h2⟩ := h
          subst h2
          exact fresh_inv

theorem init_is_qname_iff_namespace_present_witness :
    QNameInv ⟨"", some (Namespace.package "" (ApiVersion.Tag 0)), true⟩ :=
  init_is_qname_iff_namespace_present (ApiVersion.Tag 0) (Namespace.package "" (ApiVersion.Tag 0))
    [] [] ⟨"", some (Namespace.package "" (ApiVersion.Tag 0)), true⟩ (by simp) rfl

theorem init_two_arg_coerced_local (rootApi : ApiVersion) (publicNs : Namespace)
    (heap : List QNameData) (ns_arg v : Value) (nsOpt : Option Namespace) (s : String)
    (hns : resolveNamespaceArg rootApi heap ns_arg = Except.ok nsOpt)
    (hc : coerce_to_string heap v = Except.ok s) (hs : s.length ≤ 1) :
    init rootApi publicNs heap QNameData.fresh [ns_arg, v]
      = applyNamespace nsOpt { QNameData.fresh with local_name := s } := by
  cases v with
  | undefined =>
      exfalso
      simp only [coerce_to_string, Except.ok.injEq] at hc
      rw [← hc] at hs
      exact absurd hs (by decide)
  | null =>
      exfalso
      simp only [coerce_to_string, Except.ok.injEq] at hc
      rw [← hc] at hs
      exact absurd hs (by decide)
  | string t =>
      simp only [coerce_to_string, Except.ok.injEq] at hc
      subst hc
      simp [init, Value.isUndefined, hns, coerce_to_string]
  | object o =>
      cases o with
      | namespaceObject ns =>
          simp only [coerce_to_string, Except.ok.injEq] at hc
          simp [init, Value.isUndefined, hns, coerce_to_string, hc]
      | qnameObject b =>
          simp only [coerce_to_string, Except.ok.injEq] at hc
          have hl := as_uri_short _ _ hc hs
          simp [init, Value.isUndefined, hns, hl]
      | plainObject r =>
          simp only [coerce_to_string] at hc
          simp [init, Value.isUndefined, hns, coerce_to_string, hc]

/-- C5: a two-argument construction whose first argument is `null` and
whose second coerces to the string `x` yields local name `x`, no
namespace, and `is_qname = false`. -/
theorem construct_null_ns_unqualified (rootApi : ApiVersion) (publicNs : Namespace)
    (heap : List QNameData) (v : Value)
    (hc : coerce_to_string heap v = Except.ok "x") :
    init rootApi publicNs heap QNameData.fresh [Value.null, v]
        = (Except.ok (), ⟨"x", none, false⟩)
    ∧ construct rootApi publicNs heap [Value.null, v]
        = Except.ok (heap ++ [⟨"x", none, false⟩], heap.length) := by
  have h := init_two_arg_coerced_local rootApi publicNs heap Value.null v none "x" rfl hc
    (by decide)
  constructor
  · rw [h]
    rfl
  · unfold construct
    rw [h]
    rfl

theorem construct_null_ns_unqualified_witness :
    init (ApiVersion.Tag 0) Namespace.anyNs [] QNameData.fresh [Value.null, Value.string "x"]
        = (Except.ok (), ⟨"x", none, false⟩)
    ∧ construct (ApiVersion.Tag 0) Namespace.anyNs [] [Value.null, Value.string "x"]
        = Except.ok ([⟨"x", none, false⟩], 0) :=
  construct_null_ns_unqualified (ApiVersion.Tag 0) Namespace.anyNs [] (Value.string "x") rfl

/-- C6: a two-argument construction whose first argument is `undefined`
and whose second coerces to the string `x` yields local name `x`, a
Package namespace with empty URI at the root version tag, and
`is_qname = true`. -/
theorem construct_undefined_ns_public (rootApi : ApiVersion) (publicNs : Namespace)
    (heap : List QNameData) (v : Value)
    (hc : coerce_to_string heap v = Except.ok "x") :
    init rootApi publicNs heap QNameData.fresh [Value.undefined, v]
        = (Except.ok (), ⟨"x", some (Namespace.package "" rootApi), true⟩)
    ∧ construct rootApi publicNs heap [Value.undefined, v]
        = Except.ok (heap ++ [⟨"x", some (Namespace.package "" rootApi), true⟩], heap.length) := by
  have h := init_two_arg_coerced_local rootApi publicNs heap Value.undefined v
    (some (Namespace.package "" rootApi)) "x" rfl hc (by decide)
  constructor
  · rw [h]
    rfl
  · unfold construct
    rw [h]
    rfl

theorem construct_undefined_ns_public_witness :
    init (ApiVersion.Tag 0) Namespace.anyNs [] QNameData.fresh
        [Value.undefined, Value.string "x"]
        = (Except.ok (), ⟨"x", some (Namespace.package "" (ApiVersion.Tag 0)), true⟩)
    ∧ construct (ApiVersion.Tag 0) Namespace.anyNs [] [Value.undefined, Value.string "x"]
        = Except.ok ([⟨"x", some (Namespace.package "" (ApiVersion.Tag 0)), true⟩], 0) :=
  construct_undefined_ns_public (ApiVersion.Tag 0) Namespace.anyNs [] (Value.string "x") rfl

theorem applyNamespace_cases (nsOpt : Option Namespace) (q0 q : QNameData)
    (h : applyNamespace nsOpt q0 = (Except.ok (), q)) :
    (∃ ns, nsOpt = some ns ∧ q.nameSpace = some ns ∧ q.is_qname = true)
    ∨ (nsOpt = none ∧ q.nameSpace = q0.nameSpace ∧ q.is_qname = q0.is_qname) := by
  cases nsOpt with
  | some ns =>
      rw [applyNamespace, Prod.mk.injEq] at h
      obtain ⟨-, h2⟩ := h
      subst h2
      exact Or.inl ⟨ns, rfl, rfl, rfl⟩
  | none =>
      rw [applyNamespace, Prod.mk.injEq] at h
      obtain ⟨-, h2⟩ := h
      subst h2
      exact Or.inr ⟨rfl, rfl, rfl⟩

theorem init_two_arg_ns (rootApi : ApiVersion) (publicNs : Namespace) (heap : List QNameData)
    (v0 v1 : Value) (q : QNameData) (nsOpt : Option Namespace)
    (h : init rootApi publicNs heap QNameData.fresh [v0, v1] = (Except.ok (), q))
    (hns : resolveNamespaceArg rootApi heap v0 = Except.ok nsOpt) :
    (∃ ns, nsOpt = some ns ∧ q.nameSpace = some ns ∧ q.is_qname = true)
    ∨ (nsOpt = none ∧ q.nameSpace = none ∧ q.is_qname = false) := by
  unfold init at h
  rw [if_pos (by simp)] at h
  simp only [List.getD_cons_zero, List.getD_cons_succ, hns] at h
  split at h
  · rcases applyNamespace_cases _ _ _ h with h1 | h1
    · exact Or.inl h1
    · exact Or.inr h1
  · split at h
    · simp at h
    · rcases applyNamespace_cases _ _ _ h with h1 | h1
      · exact Or.inl h1
      · exact Or.inr h1

/-- C7: when the namespace argument of a two-argument construction is an
existing QName, the resolved namespace is a Package namespace built from
that QName's URI at the `AllVersions` ("matches any version") tag — not at
the root version tag — and when that QName has no URI the new instance is
left unqualified. -/
theorem init_qname_namespace_arg_any_version (rootApi : ApiVersion) (publicNs : Namespace)
    (heap : List QNameData) (a : Nat) (lv : Value) (q : QNameData)
    (h : init rootApi publicNs heap QNameData.fresh
           [Value.object (Object.qnameObject a), lv] = (Except.ok (), q)) :
    q.nameSpace = ((heapGet heap a).uri).map (fun u => Namespace.package u ApiVersion.AllVersions)
    ∧ q.is_qname = ((heapGet heap a).uri).isSome
    ∧ ((heapGet heap a).uri = none → q.nameSpace = none ∧ q.is_qname = false) := by
  rcases init_two_arg_ns rootApi publicNs heap _ lv q
      (((heapGet heap a).uri).map (fun u => Namespace.package u ApiVersion.AllVersions)) h rfl with
    ⟨ns, hsome, hq, hflag⟩ | ⟨hnone, hq, hflag⟩
  · rcases hu : (heapGet heap a).uri with _ | u
    · rw [hu] at hsome
      simp at hsome
    · rw [hu] at hsome
      simp only [Option.map_some'] at hsome
      obtain rfl := Option.some.inj hsome
      refine ⟨?_, ?_, ?_⟩
      · rw [hq]
        rfl
      · rw [hflag]
        rfl
      · intro hn
        exact absurd hn (by simp)
  · have hu : (heapGet heap a).uri = none := Option.map_eq_none'.mp hnone
    refine ⟨?_, ?_, fun _ => ⟨hq, hflag⟩⟩
    · rw [hq, hnone]
    · rw [hflag, hu]
      rfl

theorem init_qname_namespace_arg_any_version_witness :
    (⟨"m", some (Namespace.package "u" ApiVersion.AllVersions), true⟩ : QNameData).nameSpace
        = ((heapGet [⟨"n", some (Namespace.package "u" (ApiVersion.Tag 0)), true⟩] 0).uri).map
            (fun u => Namespace.package u ApiVersion.AllVersions)
    ∧ (⟨"m", some (Namespace.package "u" ApiVersion.AllVersions), true⟩ : QNameData).is_qname
        = ((heapGet [⟨"n", some (Namespace.package "u" (ApiVersion.Tag 0)), true⟩] 0).uri).isSome
    ∧ ((heapGet [⟨"n", some (Namespace.package "u" (ApiVersion.Tag 0)), true⟩] 0).uri = none →
        (⟨"m", some (Namespace.package "u" ApiVersion.AllVersions), true⟩ : QNameData).nameSpace
            = none
        ∧ (⟨"m", some (Namespace.package "u" ApiVersion.AllVersions), true⟩
            : QNameData).is_qname = false) :=
  init_qname_namespace_arg_any_version (ApiVersion.Tag 0) Namespace.anyNs
    [⟨"n", some (Namespace.package "u" (ApiVersion.Tag 0)), true⟩] 0 (Value.string "m")
    ⟨"m", some (Namespace.package "u" ApiVersion.AllVersions), true⟩ (by decide)

/-- C1: the function-call shape returns a single QName argument unchanged
with no allocation (hence calling twice on the same instance returns the
identical heap reference both times), and in every other case delegates to
a full construction, returning a freshly allocated address. -/
theorem call_handler_identity_or_constructs (rootApi : ApiVersion) (publicNs : Namespace)
    (heap : List QNameData) :
    (∀ a : Nat,
        call_handler rootApi publicNs heap [Value.object (Object.qnameObject a)]
          = Except.ok (heap, Value.object (Object.qnameObject a)))
    ∧ (∀ (a : Nat) (h1 : List QNameData) (v1 : Value),
        call_handler rootApi publicNs heap [Value.object (Object.qnameObject a)]
            = Except.ok (h1, v1) →
          call_handler rootApi publicNs h1 [v1] = Except.ok (h1, v1))
    ∧ (∀ args : List Value,
        (∀ a : Nat, args ≠ [Value.object (Object.qnameObject a)]) →
          call_handler rootApi publicNs heap args
              = (construct rootApi publicNs heap args).map
                  (fun r => (r.1, Value.object (Object.qnameObject r.2)))
            ∧ ∀ (h2 : List QNameData) (addr : Nat),
                construct rootApi publicNs heap args = Except.ok (h2, addr) →
                  addr = heap.length) := by
  have hid : ∀ a : Nat,
      call_handler rootApi publicNs heap [Value.object (Object.qnameObject a)]
        = Except.ok (heap, Value.object (Object.qnameObject a)) := by
    intro a
    simp [call_handler, Value.as_object, Object.as_qname_object]
  refine ⟨hid, ?_, ?_⟩
  · intro a h1 v1 hcall
    rw [hid a, Except.ok.injEq, Prod.mk.injEq] at hcall
    obtain ⟨rfl, rfl⟩ := hcall
    exact hid a
  · intro args hne
    have hcond : ¬(args.length = 1 ∧
        (((args.getD 0 Value.undefined).as_object).bind Object.as_qname_object).isSome = true) := by
      rintro ⟨hlen, hq⟩
      rcases args with _ | ⟨v, t⟩
      · simp at hlen
      · rcases t with _ | ⟨w, t2⟩
        · rcases v with _ | _ | s | o
          · simp [Value.as_object] at hq
          · simp [Value.as_object] at hq
          · simp [Value.as_object] at hq
          · rcases o with ns | b | r
            · simp [Value.as_object, Object.as_qname_object] at hq
            · exact hne b rfl
            · simp [Value.as_object, Object.as_qname_object] at hq
        · simp at hlen
    rw [call_handler, if_neg hcond]
    refine ⟨rfl, ?_⟩
    intro h2 addr hc
    exact (construct_ok_length rootApi publicNs heap h2 args addr hc).1

theorem call_handler_identity_or_constructs_witness :
    call_handler (ApiVersion.Tag 0) Namespace.anyNs [] []
      = (construct (ApiVersion.Tag 0) Namespace.anyNs [] []).map
          (fun r => (r.1, Value.object (Object.qnameObject r.2))) :=
  ((call_handler_identity_or_constructs (ApiVersion.Tag 0) Namespace.anyNs []).2.2 []
    (by intro a; simp)).1

/-- C4 counterexample: a QName instance built by the constructor itself
from `(undefined, "*")` stores the literal local name `"*"` with the
empty-URI Package namespace, coerces to the string `"*"`, and yet a
single-argument construction from it yields a *qualified* copy
(`is_qname = true`, namespace present) — so the claim does not hold
"regardless of the argument's runtime type". -/
theorem single_arg_star_qname_counterexample :
    construct (ApiVersion.Tag 0) (Namespace.package "" (ApiVersion.Tag 0)) []
        [Value.undefined, Value.string "*"]
      = Except.ok ([⟨"*", some (Namespace.package "" (ApiVersion.Tag 0)), true⟩], 0)
    ∧ coerce_to_string [⟨"*", some (Namespace.package "" (ApiVersion.Tag 0)), true⟩]
        (Value.object (Object.qnameObject 0)) = Except.ok "*"
    ∧ init (ApiVersion.Tag 0) (Namespace.package "" (ApiVersion.Tag 0))
        [⟨"*", some (Namespace.package "" (ApiVersion.Tag 0)), true⟩] QNameData.fresh
        [Value.object (Object.qnameObject 0)]
      = (Except.ok (), ⟨"*", some (Namespace.package "" (ApiVersion.Tag 0)), true⟩)
    ∧ (⟨"*", some (Namespace.package "" (ApiVersion.Tag 0)), true⟩ : QNameData).is_qname = true
    ∧ (⟨"*", some (Namespace.package "" (ApiVersion.Tag 0)), true⟩ : QNameData).nameSpace
        ≠ none := by
  refine ⟨by decide, by decide, by decide, rfl, by decide⟩

/-- C4 (amended): a single-argument construction whose argument is not
itself a QName instance and coerces to the string `"*"` leaves the
instance unqualified — no namespace, `is_qname = false` — and does not
store the literal `"*"` as the local name. -/
theorem init_single_non_qname_star_unqualified (rootApi : ApiVersion) (publicNs : Namespace)
    (heap : List QNameData) (v : Value)
    (hnq : (v.as_object.bind Object.as_qname_object) = none)
    (hc : coerce_to_string heap v = Except.ok "*") :
    init rootApi publicNs heap QNameData.fresh [v] = (Except.ok (), QNameData.fresh)
    ∧ QNameData.fresh.nameSpace = none ∧ QNameData.fresh.is_qname = false
    ∧ QNameData.fresh.local_name ≠ "*" := by
  refine ⟨?_, rfl, rfl, by decide⟩
  cases v with
  | undefined =>
      simp only [coerce_to_string, Except.ok.injEq] at hc
      exact absurd hc (by decide)
  | null =>
      simp only [coerce_to_string, Except.ok.injEq] at hc
      exact absurd hc (by decide)
  | string t =>
      simp only [coerce_to_string, Except.ok.injEq] at hc
      subst hc
      simp [init, Value.isUndefined, coerce_to_string]
  | object o =>
      cases o with
      | namespaceObject ns =>
          simp only [coerce_to_string, Except.ok.injEq] at hc
          simp [init, Value.isUndefined, coerce_to_string, hc]
      | qnameObject a =>
          simp [Value.as_object, Object.as_qname_object] at hnq
      | plainObject r =>
          simp only [coerce_to_string] at hc
          simp [init, Value.isUndefined, coerce_to_string, hc]

theorem init_single_non_qname_star_unqualified_witness :
    ((Value.string "*").as_object.bind Object.as_qname_object = none)
    ∧ coerce_to_string [] (Value.string "*") = Except.ok "*"
    ∧ init (ApiVersion.Tag 0) Namespace.anyNs [] QNameData.fresh [Value.string "*"]
        = (Except.ok (), QNameData.fresh) :=
  ⟨rfl, rfl, (init_single_non_qname_star_unqualified (ApiVersion.Tag 0) Namespace.anyNs []
      (Value.string "*") rfl rfl).1⟩

end Ruffle
